import Mathlib

/-!
# Verification of the tiny-msg message-extraction library

A shallow embedding of `src/lib.rs`: the UTF-16LE text codec, the
compound-container access layer (modelled as a finite entry table, matching
the external `cfb` crate's interface `open_stream` / `read_storage` /
`is_storage`), the per-property readers of `MsgReader`, and the recursive
high-level `Email` builder.  Text is modelled as `List Char` (Rust `String`
of Unicode scalar values), bytes as `Nat` values below 256, and machine
integers as `Nat`/`Int`.
-/

/-! ## Text codec (`pack_u8s_to_u16s_le_padded`, `String::from_utf16`) -/

/-- Embeds `pack_u8s_to_u16s_le_padded` (src/lib.rs:304-319): pairs of bytes
become little-endian 16-bit code units (`u16::from_le_bytes([lsb, msb]) =
lsb + 256 * msb`); a final unpaired byte is padded with a zero high byte. -/
def pack_u8s_to_u16s_le_padded : List Nat → List Nat
  | [] => []
  | [b] => [b]
  | b0 :: b1 :: rest => (b0 + 256 * b1) :: pack_u8s_to_u16s_le_padded rest

/-- Rust `char::decode_utf16` / `String::from_utf16` on a list of 16-bit code
units: a high surrogate must be followed by a low surrogate (combined into a
supplementary scalar value); an unpaired surrogate fails the whole decode. -/
def utf16Decode : List Nat → Option (List Char)
  | [] => some []
  | u :: us =>
    if 0xD800 ≤ u ∧ u < 0xDC00 then
      match us with
      | v :: vs =>
        if 0xDC00 ≤ v ∧ v < 0xE000 then
          (utf16Decode vs).map
            (fun t => Char.ofNat (0x10000 + (u - 0xD800) * 0x400 + (v - 0xDC00)) :: t)
        else none
      | [] => none
    else if 0xDC00 ≤ u ∧ u < 0xE000 then none
    else (utf16Decode us).map (fun t => Char.ofNat u :: t)

/-- Rust `str::trim_end_matches('\0')`: drop every trailing NUL character. -/
def trimEndNuls (s : List Char) : List Char :=
  (s.reverse.dropWhile (fun c => c = '\x00')).reverse

/-- The decode stage shared by `read_simple_string` / `read_path_as_string`
(src/lib.rs:143-145 and 165-167): pack the raw bytes into LE code units,
decode as UTF-16, and strip trailing NULs.  `none` models the
`Err(MsgError::Encoding)` branch. -/
def decode_text (bytes : List Nat) : Option (List Char) :=
  (utf16Decode (pack_u8s_to_u16s_le_padded bytes)).map trimEndNuls

/-! UTF-16 encoding, used to state the round-trip property of §8 of the spec:
the encoder is the standard one (Rust `str::encode_utf16` /
`String::encode_utf16` followed by little-endian byte serialisation). -/

/-- UTF-16 code units of one Unicode scalar value. -/
def encodeChar (c : Char) : List Nat :=
  if c.toNat < 0x10000 then [c.toNat]
  else [0xD800 + (c.toNat - 0x10000) / 0x400, 0xDC00 + (c.toNat - 0x10000) % 0x400]

/-- UTF-16 code units of a text. -/
def utf16Encode : List Char → List Nat
  | [] => []
  | c :: s => encodeChar c ++ utf16Encode s

/-- Little-endian byte serialisation of 16-bit code units. -/
def unitsToBytesLE : List Nat → List Nat
  | [] => []
  | u :: us => u % 256 :: u / 256 :: unitsToBytesLE us

/-- UTF-16LE byte encoding of a text. -/
def utf16leBytes (s : List Char) : List Nat :=
  unitsToBytesLE (utf16Encode s)

/-! ## Rust string primitives used by `MsgReader`, modelled over `List Char` -/

/-- Rust `str::split(';')` / `str::split(";")`: split at every separator,
keeping empty pieces (`"".split(';')` yields one empty piece). -/
def splitOnChar (sep : Char) : List Char → List (List Char)
  | [] => [[]]
  | c :: rest =>
    match splitOnChar sep rest with
    | [] => if c = sep then [[], []] else [[c]]
    | h :: t => if c = sep then [] :: h :: t else (c :: h) :: t

/-- The whitespace class used by Rust `str::trim`
(`char::is_whitespace`): the Unicode White_Space property, i.e. the code
points 09-0D, 20, 85, A0, 1680, 2000-200A, 2028, 2029, 202F, 205F, 3000. -/
def isWs (c : Char) : Bool :=
  c.toNat = 0x09 || c.toNat = 0x0A || c.toNat = 0x0B || c.toNat = 0x0C ||
  c.toNat = 0x0D || c.toNat = 0x20 || c.toNat = 0x85 || c.toNat = 0xA0 ||
  c.toNat = 0x1680 || (0x2000 ≤ c.toNat && c.toNat ≤ 0x200A) ||
  c.toNat = 0x2028 || c.toNat = 0x2029 || c.toNat = 0x202F ||
  c.toNat = 0x205F || c.toNat = 0x3000

/-- Rust `str::trim`: strip leading and trailing whitespace. -/
def trimWs (s : List Char) : List Char :=
  ((s.dropWhile isWs).reverse.dropWhile isWs).reverse

/-- Drop one trailing carriage return (the `\r` of a `\r\n` terminator). -/
def stripTrailCR (l : List Char) : List Char :=
  if l.getLast? = some '\x0D' then l.dropLast else l

/-- Rust `str::lines`: split at `\n`, treat `\r\n` as a terminator as well,
and do not yield a final empty line for a trailing terminator. -/
def rlines (s : List Char) : List (List Char) :=
  match (splitOnChar '\x0A' s).reverse with
  | [] => []
  | last :: revInit =>
    let first := (revInit.reverse).map stripTrailCR
    if last = [] then first else first ++ [last]

/-- Rust `str::split_once(": ")`: split at the first occurrence of the
two-character pattern `": "`, or `none` when it does not occur. -/
def split_once_colon_space : List Char → Option (List Char × List Char)
  | [] => none
  | ':' :: ' ' :: rest => some ([], rest)
  | c :: rest =>
    (split_once_colon_space rest).map (fun p => (c :: p.1, p.2))

/-- Rust `String::from_utf8` (strict UTF-8 validation: continuation bytes in
`0x80..0xBF`, shortest-form encodings only, surrogate range and values above
`0x10FFFF` rejected). -/
def utf8Decode : List Nat → Option (List Char)
  | [] => some []
  | b0 :: rest =>
    if b0 < 0x80 then (utf8Decode rest).map (fun t => Char.ofNat b0 :: t)
    else if b0 < 0xC2 then none
    else if b0 < 0xE0 then
      match rest with
      | b1 :: rest1 =>
        if 0x80 ≤ b1 ∧ b1 < 0xC0 then
          (utf8Decode rest1).map (fun t => Char.ofNat ((b0 - 0xC0) * 0x40 + (b1 - 0x80)) :: t)
        else none
      | [] => none
    else if b0 < 0xF0 then
      match rest with
      | b1 :: b2 :: rest2 =>
        if (0x80 ≤ b1 ∧ b1 < 0xC0) ∧ (0x80 ≤ b2 ∧ b2 < 0xC0) then
          let n := (b0 - 0xE0) * 0x1000 + (b1 - 0x80) * 0x40 + (b2 - 0x80)
          if 0x800 ≤ n ∧ ¬(0xD800 ≤ n ∧ n < 0xE000) then
            (utf8Decode rest2).map (fun t => Char.ofNat n :: t)
          else none
        else none
      | _ => none
    else if b0 < 0xF5 then
      match rest with
      | b1 :: b2 :: b3 :: rest3 =>
        if (0x80 ≤ b1 ∧ b1 < 0xC0) ∧ (0x80 ≤ b2 ∧ b2 < 0xC0) ∧ (0x80 ≤ b3 ∧ b3 < 0xC0) then
          let n := (b0 - 0xF0) * 0x40000 + (b1 - 0x80) * 0x1000 + (b2 - 0x80) * 0x40 + (b3 - 0x80)
          if 0x10000 ≤ n ∧ n < 0x110000 then
            (utf8Decode rest3).map (fun t => Char.ofNat n :: t)
          else none
        else none
      | _ => none
    else none

/-! ## RFC 2822 date-time parsing

`sent_date` (src/lib.rs:209-221) delegates the date payload to
`chrono::DateTime::parse_from_rfc2822` and then converts to UTC with
`with_timezone(&Utc)`.  chrono is an external dependency whose source is not
part of this repository; the following definitions model its documented and
observable behavior on the header grammar exercised here:
`[weekday-name ","] day month-name 4-digit-year HH:MM[:SS] (+|-)HHMM`,
with single `' '` runs as separators.  Notably, chrono *validates* an
explicit weekday name against the calendar date and rejects the whole
timestamp when they disagree ("input is inconsistent"), so that check is
preserved.  A timestamp is modelled as `Int` seconds since the Unix epoch
(UTC), which is exactly the instant `DateTime<Utc>` denotes. -/

/-- Decimal digit value of a character. -/
def digit? (c : Char) : Option Nat :=
  if '0' ≤ c ∧ c ≤ '9' then some (c.toNat - 48) else none

/-- One or two decimal digits (the RFC 2822 day). -/
def parseDay : List Char → Option (Nat × List Char)
  | [] => none
  | a :: rest =>
    match digit? a with
    | none => none
    | some x =>
      match rest with
      | b :: rest2 =>
        match digit? b with
        | some y => some (x * 10 + y, rest2)
        | none => some (x, rest)
      | [] => some (x, [])

/-- Exactly two decimal digits. -/
def digits2 : List Char → Option (Nat × List Char)
  | a :: b :: rest =>
    match digit? a, digit? b with
    | some x, some y => some (x * 10 + y, rest)
    | _, _ => none
  | _ => none

/-- Exactly four decimal digits (the year; chrono also accepts 2- and
3-digit years with windowing, not exercised here). -/
def digits4 : List Char → Option (Nat × List Char)
  | a :: b :: c :: d :: rest =>
    match digit? a, digit? b, digit? c, digit? d with
    | some x, some y, some z, some w => some (x * 1000 + y * 100 + z * 10 + w, rest)
    | _, _, _, _ => none
  | _ => none

/-- Three-letter English month name, as in RFC 2822. -/
def monthOf : List Char → Option (Nat × List Char)
  | 'J' :: 'a' :: 'n' :: r => some (1, r)
  | 'F' :: 'e' :: 'b' :: r => some (2, r)
  | 'M' :: 'a' :: 'r' :: r => some (3, r)
  | 'A' :: 'p' :: 'r' :: r => some (4, r)
  | 'M' :: 'a' :: 'y' :: r => some (5, r)
  | 'J' :: 'u' :: 'n' :: r => some (6, r)
  | 'J' :: 'u' :: 'l' :: r => some (7, r)
  | 'A' :: 'u' :: 'g' :: r => some (8, r)
  | 'S' :: 'e' :: 'p' :: r => some (9, r)
  | 'O' :: 'c' :: 't' :: r => some (10, r)
  | 'N' :: 'o' :: 'v' :: r => some (11, r)
  | 'D' :: 'e' :: 'c' :: r => some (12, r)
  | _ => none

/-- Three-letter English weekday name, numbered Mon = 0 … Sun = 6. -/
def weekdayOf3 : List Char → Option (Nat × List Char)
  | 'M' :: 'o' :: 'n' :: r => some (0, r)
  | 'T' :: 'u' :: 'e' :: r => some (1, r)
  | 'W' :: 'e' :: 'd' :: r => some (2, r)
  | 'T' :: 'h' :: 'u' :: r => some (3, r)
  | 'F' :: 'r' :: 'i' :: r => some (4, r)
  | 'S' :: 'a' :: 't' :: r => some (5, r)
  | 'S' :: 'u' :: 'n' :: r => some (6, r)
  | _ => none

/-- One or more spaces. -/
def sp1 : List Char → Option (List Char)
  | ' ' :: r => some (r.dropWhile (fun c => c = ' '))
  | _ => none

/-- Gregorian leap year. -/
def isLeap (y : Int) : Bool :=
  (y % 4 == 0 && y % 100 != 0) || y % 400 == 0

/-- Days in a Gregorian month. -/
def daysInMonth (y : Int) (m : Nat) : Nat :=
  if m = 2 then (if isLeap y then 29 else 28)
  else if m = 4 ∨ m = 6 ∨ m = 9 ∨ m = 11 then 30
  else 31

/-- Days from 1970-01-01 to the Gregorian date `y-m-d` (the standard
days-from-civil algorithm; all divisions are exact or on non-negative
operands for the 4-digit years produced by the parser). -/
def daysFromCivil (y : Int) (m d : Nat) : Int :=
  let y' : Int := if m ≤ 2 then y - 1 else y
  let era : Int := (if 0 ≤ y' then y' else y' - 399) / 400
  let yoe : Int := y' - era * 400
  let mp : Int := if m > 2 then (m : Int) - 3 else (m : Int) + 9
  let doy : Int := (153 * mp + 2) / 5 + (d : Int) - 1
  let doe : Int := yoe * 365 + yoe / 4 - yoe / 100 + doy
  era * 146097 + doe - 719468

/-- Weekday of a day count (days since 1970-01-01, a Thursday),
numbered Mon = 0 … Sun = 6. -/
def weekdayNum (days : Int) : Nat :=
  (((days + 3) % 7 + 7) % 7).toNat

/-- Seconds since the Unix epoch of the UTC instant `y-m-d h:mi:s`. -/
def utcTimestamp (y : Int) (m d h mi s : Nat) : Int :=
  daysFromCivil y m d * 86400 + (h * 3600 + mi * 60 + s : Nat)

/-- Modelled from the behavior of `chrono::DateTime::parse_from_rfc2822`
followed by `.with_timezone(&Utc)` (see the section comment above): parse an
RFC 2822 date-time, reject an explicit weekday inconsistent with the date,
and return the denoted instant as seconds since the Unix epoch. -/
def parseRfc2822 (s0 : List Char) : Option Int := do
  let s := s0.dropWhile (fun c => c = ' ')
  let (wd, s) ←
    match weekdayOf3 s with
    | some (w, r) =>
      match r with
      | ',' :: r2 => (sp1 r2).map (fun r3 => ((some w : Option Nat), r3))
      | _ => none
    | none => some ((none : Option Nat), s)
  let (day, s) ← parseDay s
  let s ← sp1 s
  let (month, s) ← monthOf s
  let s ← sp1 s
  let (year, s) ← digits4 s
  let s ← sp1 s
  let (hour, s) ← digits2 s
  let s ← match s with | ':' :: r => some r | _ => none
  let (minute, s) ← digits2 s
  let (second, s) ←
    match s with
    | ':' :: r => digits2 r
    | _ => some (0, s)
  let s ← sp1 s
  let (sign, s) ←
    match s with
    | '+' :: r => some ((1 : Int), r)
    | '-' :: r => some ((-1 : Int), r)
    | _ => none
  let (oh, s) ← digits2 s
  let (om, s) ← digits2 s
  if s.dropWhile (fun c => c = ' ') = [] then pure () else none
  if 1 ≤ day ∧ day ≤ daysInMonth year month ∧ hour < 24 ∧ minute < 60 ∧
      second < 60 ∧ om < 60 ∧ (oh * 3600 + om * 60 : Nat) < 86400 then
    pure ()
  else none
  let days := daysFromCivil year month day
  match wd with
  | some w => if weekdayNum days = w then pure () else none
  | none => pure ()
  let offset : Int := sign * ((oh : Int) * 3600 + (om : Int) * 60)
  pure (utcTimestamp year month day hour minute second - offset)

/-! ## The compound-file container (external `cfb` crate)

The container is the spec's external Container Access Port: a hierarchical
store of named storages and streams.  It is modelled as a finite entry
table; an entry's path is its parent storage's path plus its own name, with
the root storage at `[]` (Rust `Path::new("/")`).  `open_stream`,
`read_storage` and `is_storage` are the three operations the library uses;
`none` models the `io::Error` those cfb calls return, which
`MsgError::from` turns into `MsgError::IO`. -/

/-- One directory entry of the compound file: a stream (with contents) or a
storage, living under `parent`. -/
structure Entry where
  parent : List String
  name : String
  isDir : Bool
  data : List Nat
deriving DecidableEq

/-- The absolute path of an entry. -/
def epath (e : Entry) : List String :=
  e.parent ++ [e.name]

/-- A compound-file container: its entry table.  (The root storage `[]` is
implicit and always present, as in cfb.) -/
structure Cfb where
  entries : List Entry
deriving DecidableEq

/-- `CompoundFile::open_stream`: the contents of the stream at `p`, or
`none` (an `io::Error`) when no stream lives there. -/
def openStream (c : Cfb) (p : List String) : Option (List Nat) :=
  (c.entries.find? (fun e => epath e == p && !e.isDir)).map (fun e => e.data)

/-- `CompoundFile::is_storage`: does `p` name a storage?  The root always
does. -/
def isStorageB (c : Cfb) (p : List String) : Bool :=
  p == [] || c.entries.any (fun e => epath e == p && e.isDir)

/-- `CompoundFile::read_storage`: the immediate children of the storage at
`p`, or `none` (an `io::Error`) when `p` is not a storage. -/
def readStorage (c : Cfb) (p : List String) : Option (List Entry) :=
  if isStorageB c p then some (c.entries.filter (fun e => e.parent == p)) else none

/-- The longest entry-path length in the container; bounds the depth of any
storage path and hence the recursion of the tree builder. -/
def maxPathLen (c : Cfb) : Nat :=
  (c.entries.map (fun e => (epath e).length)).foldr Nat.max 0

/-! ## `MsgError` and the property readers (`MsgReader`) -/

/-- Embeds `MsgError` (src/lib.rs:13-23).  Its four kinds are `IO` (from
`std::io::Error`, including every cfb stream/storage miss), `Fmt` (from
`std::fmt::Error`, never produced by this library), `Encoding` (every
decode failure *and* every malformed or missing `Date` header), and
`Unknown` (never produced).  Constructor names are lowercased. -/
inductive MsgError where
  | io
  | fmt
  | encoding
  | unknown
deriving DecidableEq

/-- `Result::ok`: `Except.toOption`. -/
def exOk {α : Type} : Except MsgError α → Option α
  | .ok a => some a
  | .error _ => none

/-- `Result::unwrap_or_default` for list-valued results. -/
def exListD {α : Type} : Except MsgError (List α) → List α
  | .ok a => a
  | .error _ => []

/-- `Result::or_else` with an error-independent fallback (the `|_|`
closures of src/lib.rs). -/
def exOrElse {α : Type} (a b : Except MsgError α) : Except MsgError α :=
  match a with
  | .ok v => .ok v
  | .error _ => b

/-- Rust `str::starts_with` on entry names (defined over the character
list so that it evaluates by kernel reduction). -/
def strStarts (pre s : String) : Bool :=
  pre.data.isPrefixOf s.data

namespace Msg

/-- The canonical sub-entry name of a property: `__substg1.0_` + 4-hex-digit
tag + 4-hex-digit type suffix (src/lib.rs:140,150). -/
def substg (prop suffix : String) : String :=
  "__substg1.0_" ++ prop ++ suffix

/-- Open the stream at absolute path `p` and decode it as a UTF-16LE text
property: the shared body of `read_simple_string` (src/lib.rs:137-146) and
`read_path_as_string` (src/lib.rs:161-168).  A container miss is
`MsgError::IO` (via `?` on `open_stream`); a UTF-16 decode failure is
`MsgError::Encoding`; trailing NULs are trimmed. -/
def readStringAt (c : Cfb) (p : List String) : Except MsgError (List Char) :=
  match openStream c p with
  | none => .error .io
  | some buf =>
    match decode_text buf with
    | none => .error .encoding
    | some s => .ok s

/-- Open the stream at absolute path `p` and return its raw bytes: the
shared body of `read_simple_binary` (src/lib.rs:147-154) and
`read_path_as_binary` (src/lib.rs:155-160). -/
def readBinaryAt (c : Cfb) (p : List String) : Except MsgError (List Nat) :=
  match openStream c p with
  | none => .error .io
  | some buf => .ok buf

/-- `read_simple_string` (src/lib.rs:137-146): the text property `prop` of
the node at `path` (type suffix `001F`). -/
def read_simple_string (c : Cfb) (path : List String) (prop : String) :
    Except MsgError (List Char) :=
  readStringAt c (path ++ [substg prop "001F"])

/-- `read_simple_binary` (src/lib.rs:147-154): the binary property `prop` of
the node at `path` (type suffix `0102`). -/
def read_simple_binary (c : Cfb) (path : List String) (prop : String) :
    Except MsgError (List Nat) :=
  readBinaryAt c (path ++ [substg prop "0102"])

/-- `read_path_as_string` (src/lib.rs:161-168).  Every caller in the source
passes an *absolute* subpath (an entry path from `read_storage` joined with
a fixed name), and Rust's `Path::join` with an absolute argument replaces
the base path, so `self.path.join(subpath) = subpath`. -/
def read_path_as_string (c : Cfb) (sub : List String) : Except MsgError (List Char) :=
  readStringAt c sub

/-- `read_path_as_binary` (src/lib.rs:155-160); same join remark as
`read_path_as_string`. -/
def read_path_as_binary (c : Cfb) (sub : List String) : Except MsgError (List Nat) :=
  readBinaryAt c sub

/-- `pr_subject` (src/lib.rs:169-171): PR_SUBJECT, tag 0037. -/
def pr_subject (c : Cfb) (path : List String) : Except MsgError (List Char) :=
  read_simple_string c path "0037"

/-- `pr_sender_name` (src/lib.rs:172-174): tag 0C1A. -/
def pr_sender_name (c : Cfb) (path : List String) : Except MsgError (List Char) :=
  read_simple_string c path "0C1A"

/-- `pr_sender_email_adress_str` (src/lib.rs:175-177): tag 0C19. -/
def pr_sender_email_adress_str (c : Cfb) (path : List String) :
    Except MsgError (List Char) :=
  read_simple_string c path "0C19"

/-- `pr_smtp_sender_address` (src/lib.rs:178-180): tag 5D01. -/
def pr_smtp_sender_address (c : Cfb) (path : List String) :
    Except MsgError (List Char) :=
  read_simple_string c path "5D01"

/-- `pr_smtp_address` (src/lib.rs:181-183): tag 39FE. -/
def pr_smtp_address (c : Cfb) (path : List String) : Except MsgError (List Char) :=
  read_simple_string c path "39FE"

/-- `sender_address` (src/lib.rs:184-188): the ordered fallback chain
0C19, then 39FE, then 5D01. -/
def sender_address (c : Cfb) (path : List String) : Except MsgError (List Char) :=
  exOrElse (pr_sender_email_adress_str c path)
    (exOrElse (pr_smtp_address c path) (pr_smtp_sender_address c path))

/-- `from` (src/lib.rs:189-191): the (sender name, sender address) pair;
either failure fails the pair. -/
def from_ (c : Cfb) (path : List String) :
    Except MsgError (List Char × List Char) := do
  let n ← pr_sender_name c path
  let a ← sender_address c path
  pure (n, a)

/-- `pr_transport_message_headers` (src/lib.rs:192-194): tag 007D. -/
def pr_transport_message_headers (c : Cfb) (path : List String) :
    Except MsgError (List Char) :=
  read_simple_string c path "007D"

/-- `pr_body_html` (src/lib.rs:195-198): the binary property 1013 decoded
strictly as UTF-8; a decode failure is `MsgError::Encoding`. -/
def pr_body_html (c : Cfb) (path : List String) : Except MsgError (List Char) := do
  let bin ← read_simple_binary c path "1013"
  match utf8Decode bin with
  | some s => .ok s
  | none => .error .encoding

/-- `pr_rtf_compressed` (src/lib.rs:199-201): tag 1009, binary. -/
def pr_rtf_compressed (c : Cfb) (path : List String) : Except MsgError (List Nat) :=
  read_simple_binary c path "1009"

/-- `rtf` (src/lib.rs:202-205): decompress the compressed-RTF bytes with the
external `compressed_rtf::decompress_rtf` (modelled as the parameter `dec`,
an arbitrary black-box transform); its failure is `MsgError::Encoding`. -/
def rtf (c : Cfb) (dec : List Nat → Option (List Char)) (path : List String) :
    Except MsgError (List Char) := do
  let comp ← pr_rtf_compressed c path
  match dec comp with
  | some s => .ok s
  | none => .error .encoding

/-- `body` (src/lib.rs:206-208): the HTML body, else the decompressed RTF. -/
def body (c : Cfb) (dec : List Nat → Option (List Char)) (path : List String) :
    Except MsgError (List Char) :=
  exOrElse (pr_body_html c path) (rtf c dec path)

/-- `sent_date` (src/lib.rs:209-221): find the first transport-header line
whose prefix is `Date`, split it at the first `": "`, and parse the
remainder as an RFC 2822 date-time converted to UTC.  Every failure is
mapped to `MsgError::Encoding`. -/
def sent_date (c : Cfb) (path : List String) : Except MsgError Int := do
  let headers ← pr_transport_message_headers c path
  match (rlines headers).find? (fun l => "Date".toList.isPrefixOf l) with
  | none => .error .encoding
  | some line =>
    match split_once_colon_space line with
    | none => .error .encoding
    | some pr =>
      match parseRfc2822 pr.2 with
      | none => .error .encoding
      | some t => .ok t

/-- `recipients` (src/lib.rs:222-237): the paths of the sub-storages whose
name begins with `__recip_version1.0_`, each resolved to its (display name,
address) pair from sub-properties 3001 and 39FE; any single failure fails
the whole enumeration (`collect::<Result<Vec<_>>>`). -/
def recipients (c : Cfb) (path : List String) :
    Except MsgError (List (List Char × List Char)) :=
  match readStorage c path with
  | none => .error .io
  | some es =>
    let recipPaths :=
      (es.filter (fun e => strStarts "__recip_version1.0_" e.name)).map epath
    recipPaths.mapM (fun r => do
      let name ← read_path_as_string c (r ++ [substg "3001" "001F"])
      let address ← read_path_as_string c (r ++ [substg "39FE" "001F"])
      pure (name, address))

/-- `to` (src/lib.rs:238-247): read the To display-name list (tag 0E04),
split it on `';'`, trim each entry, and keep the recipients whose display
name occurs in the list. -/
def to_ (c : Cfb) (path : List String) :
    Except MsgError (List (List Char × List Char)) := do
  let to_field ← read_simple_string c path "0E04"
  let to_list := (splitOnChar ';' to_field).map trimWs
  let rs ← recipients c path
  pure (rs.filter (fun kv => to_list.contains kv.1))

/-- `cc` (src/lib.rs:248-257): as `to`, with the Cc list (tag 0E03). -/
def cc (c : Cfb) (path : List String) :
    Except MsgError (List (List Char × List Char)) := do
  let cc_field ← read_simple_string c path "0E03"
  let cc_list := (splitOnChar ';' cc_field).map trimWs
  let rs ← recipients c path
  pure (rs.filter (fun kv => cc_list.contains kv.1))

/-- `bcc` (src/lib.rs:258-267): as `to`, with the Bcc list (tag 0E02). -/
def bcc (c : Cfb) (path : List String) :
    Except MsgError (List (List Char × List Char)) := do
  let bcc_field ← read_simple_string c path "0E02"
  let bcc_list := (splitOnChar ';' bcc_field).map trimWs
  let rs ← recipients c path
  pure (rs.filter (fun kv => bcc_list.contains kv.1))

end Msg

/-- Embeds `Attachment` (src/lib.rs:33-37). -/
structure Attachment where
  name : List Char
  data : List Nat
deriving DecidableEq

namespace Msg

/-- The paths of the sub-storages whose name begins with
`__attach_version1.0_`: the shared first half of `attachments`
(src/lib.rs:269-274) and `embedded_messages` (src/lib.rs:289-294). -/
def attachment_paths (c : Cfb) (path : List String) :
    Except MsgError (List (List String)) :=
  match readStorage c path with
  | none => .error .io
  | some es =>
    .ok ((es.filter (fun e => strStarts "__attach_version1.0_" e.name)).map epath)

/-- The filename of one attachment entry (src/lib.rs:278-280): the long
filename property (3704), falling back to the short filename property
(3001) only when the long form fails. -/
def attachment_name (c : Cfb) (a : List String) : Except MsgError (List Char) :=
  exOrElse (read_path_as_string c (a ++ [substg "3704" "001F"]))
    (read_path_as_string c (a ++ [substg "3001" "001F"]))

/-- The binary data of one attachment entry (src/lib.rs:281): property 3701
with binary type suffix 0102. -/
def attachment_data (c : Cfb) (a : List String) : Except MsgError (List Nat) :=
  read_path_as_binary c (a ++ [substg "3701" "0102"])

/-- The per-entry closure of `attachments` (src/lib.rs:277-284): the
filename plus the binary data; `flat_map` keeps `Ok` results and drops
`Err` ones. -/
def attachmentOf (c : Cfb) (a : List String) : Except MsgError Attachment := do
  let name ← attachment_name c a
  let data ← attachment_data c a
  pure { name := name, data := data }

/-- `attachments` (src/lib.rs:268-287): every attachment entry whose name
and data both resolve; failing entries are dropped entirely. -/
def attachments (c : Cfb) (path : List String) :
    Except MsgError (List Attachment) := do
  let aps ← attachment_paths c path
  pure (aps.filterMap (fun a => exOk (attachmentOf c a)))

/-- `embedded_messages` (src/lib.rs:288-301): each attachment entry's fixed
sub-path `__substg1.0_3701000D`, kept exactly when it is a storage. -/
def embedded_messages (c : Cfb) (path : List String) :
    Except MsgError (List (List String)) := do
  let aps ← attachment_paths c path
  pure ((aps.map (fun a => a ++ [substg "3701" "000D"])).filter
    (fun a => isStorageB c a))

end Msg

/-- Embeds `Email` (src/lib.rs:49-60); a recursive owned tree. -/
inductive Email where
  | mk
    (from_ : Option (List Char × List Char))
    (sent_date : Option Int)
    (to_ : List (List Char × List Char))
    (cc : List (List Char × List Char))
    (bcc : List (List Char × List Char))
    (subject : Option (List Char))
    (body : Option (List Char))
    (attachments : List Attachment)
    (embedded_messages : List Email)

def Email.from_ : Email → Option (List Char × List Char)
  | .mk f _ _ _ _ _ _ _ _ => f

def Email.sent_date : Email → Option Int
  | .mk _ d _ _ _ _ _ _ _ => d

def Email.to_ : Email → List (List Char × List Char)
  | .mk _ _ t _ _ _ _ _ _ => t

def Email.cc : Email → List (List Char × List Char)
  | .mk _ _ _ cl _ _ _ _ _ => cl

def Email.bcc : Email → List (List Char × List Char)
  | .mk _ _ _ _ b _ _ _ _ => b

def Email.subject : Email → Option (List Char)
  | .mk _ _ _ _ _ s _ _ _ => s

def Email.body : Email → Option (List Char)
  | .mk _ _ _ _ _ _ b _ _ => b

def Email.attachments : Email → List Attachment
  | .mk _ _ _ _ _ _ _ a _ => a

def Email.embedded_messages : Email → List Email
  | .mk _ _ _ _ _ _ _ _ e => e

/-- `sequence` over `Option`: `some` of the values exactly when every
element is `some` (a panic anywhere in the recursive `map` of
`from_bytes_internal` aborts the whole build). -/
def seqOpt {α : Type} : List (Option α) → Option (List α)
  | [] => some []
  | none :: _ => none
  | some a :: os =>
    match seqOpt os with
    | some rest => some (a :: rest)
    | none => none

/-- The per-node field resolution of `Email::from_bytes_internal`
(src/lib.rs:102-109 and 115-125): every per-field failure degrades via
`.ok()` / `.unwrap_or_default()` to an absent or empty field. -/
def build_node (c : Cfb) (dec : List Nat → Option (List Char))
    (path : List String) (embs : List Email) : Email :=
  .mk
    (exOk (Msg.from_ c path))
    (exOk (Msg.sent_date c path))
    (exListD (Msg.to_ c path))
    (exListD (Msg.cc c path))
    (exListD (Msg.bcc c path))
    (exOk (Msg.pr_subject c path))
    (exOk (Msg.body c dec path))
    (exListD (Msg.attachments c path))
    embs

/-- The body of `Email::from_bytes_internal` (src/lib.rs:98-126), with a
structural fuel argument standing for the recursion (`from_bytes_internal`
instantiates it so that it never runs out; see `build_go_isSome`).  The
`.unwrap()` on `embedded_messages` — a Rust panic — is modelled as `none`,
and a `none` from a recursive call propagates (a panic unwinds the whole
build). -/
def build_go (c : Cfb) (dec : List Nat → Option (List Char)) :
    Nat → List String → Option Email
  | 0, _ => none
  | fuel + 1, path =>
    match Msg.embedded_messages c path with
    | .error _ => none
    | .ok embPaths =>
      (seqOpt (embPaths.map (fun p => build_go c dec fuel p))).map
        (build_node c dec path)

/-- `Email::from_bytes_internal` (src/lib.rs:98-126): build the message node
at `path` and recurse into every embedded-message sub-path.  The fuel
`maxPathLen c + 1` dominates the nesting depth of the container, so the
model is total on exactly the executions where the Rust code does not
panic.  (`from_path_internal`, src/lib.rs:70-97, reopens the same container
from its file per node and is otherwise line-for-line identical, so this
single model covers both high-level constructors.) -/
def from_bytes_internal (c : Cfb) (dec : List Nat → Option (List Char))
    (path : List String) : Option Email :=
  build_go c dec (maxPathLen c + 1) path

/-- `Email::from_bytes` (src/lib.rs:66-68): build from the root storage. -/
def Email.from_bytes (c : Cfb) (dec : List Nat → Option (List Char)) :
    Option Email :=
  from_bytes_internal c dec []

/-! ## Concrete containers used by witnesses and counterexamples -/

/-- UTF-16LE bytes of a string literal. -/
def utf16le (s : String) : List Nat :=
  utf16leBytes s.toList

/-- An RTF decompressor that always fails (for witnesses that never reach
the compressed-RTF fallback). -/
def dNone : List Nat → Option (List Char) :=
  fun _ => none

/-- A container holding only a subject property at the root. -/
def cW : Cfb :=
  ⟨[⟨[], "__substg1.0_0037001F", false, utf16le "Hi"⟩]⟩

/-- The message `cW` resolves to: a subject, and every other field absent or
empty. -/
def eW : Email :=
  .mk none none [] [] [] (some ['H', 'i']) none [] []

/-- A container with one attachment entry whose embedded-message sub-path is
a storage. -/
def cE : Cfb :=
  ⟨[⟨[], "__attach_version1.0_00000000", true, []⟩,
    ⟨["__attach_version1.0_00000000"], "__substg1.0_3701000D", true, []⟩]⟩

/-- A container with one attachment entry and no embedded-message storage. -/
def cZ : Cfb :=
  ⟨[⟨[], "__attach_version1.0_00000000", true, []⟩]⟩

/-- A container with both a recipient role list (To = "Bob", Cc = "Alice",
Bcc = "") and one recipient entry named Alice. -/
def cR : Cfb :=
  ⟨[⟨[], "__substg1.0_0E04001F", false, utf16le "Bob"⟩,
    ⟨[], "__substg1.0_0E03001F", false, utf16le "Alice"⟩,
    ⟨[], "__substg1.0_0E02001F", false, utf16le ""⟩,
    ⟨[], "__recip_version1.0_00000000", true, []⟩,
    ⟨["__recip_version1.0_00000000"], "__substg1.0_3001001F", false, utf16le "Alice"⟩,
    ⟨["__recip_version1.0_00000000"], "__substg1.0_39FE001F", false, utf16le "alice@x"⟩]⟩

/-- A container with one complete attachment entry (short filename only) and
one attachment entry that lacks its data property. -/
def cA : Cfb :=
  ⟨[⟨[], "__attach_version1.0_00000000", true, []⟩,
    ⟨["__attach_version1.0_00000000"], "__substg1.0_3001001F", false, utf16le "a.txt"⟩,
    ⟨["__attach_version1.0_00000000"], "__substg1.0_37010102", false, [9, 9]⟩,
    ⟨[], "__attach_version1.0_00000001", true, []⟩,
    ⟨["__attach_version1.0_00000001"], "__substg1.0_3704001F", false, utf16le "b.txt"⟩]⟩

/-- A container with a To list naming Alice, one complete recipient entry
(Alice) and one recipient entry lacking its address sub-property. -/
def cT : Cfb :=
  ⟨[⟨[], "__substg1.0_0E04001F", false, utf16le "Alice"⟩,
    ⟨[], "__recip_version1.0_00000000", true, []⟩,
    ⟨["__recip_version1.0_00000000"], "__substg1.0_3001001F", false, utf16le "Alice"⟩,
    ⟨["__recip_version1.0_00000000"], "__substg1.0_39FE001F", false, utf16le "alice@x"⟩,
    ⟨[], "__recip_version1.0_00000001", true, []⟩,
    ⟨["__recip_version1.0_00000001"], "__substg1.0_3001001F", false, utf16le "Bob"⟩]⟩

/-- The message `cT` resolves to: every recipient list empty. -/
def emT : Email :=
  .mk none none [] [] [] none none [] []

/-- An empty container: every property read misses. -/
def cM : Cfb :=
  ⟨[]⟩

/-- A container whose subject stream holds a lone UTF-16 high surrogate. -/
def cU : Cfb :=
  ⟨[⟨[], "__substg1.0_0037001F", false, [0x00, 0xD8]⟩]⟩

/-- A container whose transport headers contain no `Date` line. -/
def cD : Cfb :=
  ⟨[⟨[], "__substg1.0_007D001F", false, utf16le "X-Mailer: tiny"⟩]⟩

/-- A container whose transport headers carry an RFC 2822 date with an
inconsistent weekday name (2021-11-21 was a Sunday, not a Friday). -/
def cF : Cfb :=
  ⟨[⟨[], "__substg1.0_007D001F", false,
     utf16le "Date: Fri, 21 Nov 2021 09:55:06 +0000"⟩]⟩

/-- A container whose transport headers carry a weekday-consistent RFC 2822
date. -/
def cS : Cfb :=
  ⟨[⟨[], "__substg1.0_007D001F", false,
     utf16le "Date: Sun, 21 Nov 2021 09:55:06 +0000"⟩]⟩

/-- A container holding both an HTML body (ASCII bytes of `<b>x</b>`) and a
compressed-RTF stream. -/
def cB : Cfb :=
  ⟨[⟨[], "__substg1.0_10130102", false, [60, 98, 62, 120, 60, 47, 98, 62]⟩,
    ⟨[], "__substg1.0_10090102", false, [1, 2, 3]⟩]⟩

/-- A container holding only a compressed-RTF stream. -/
def cHR : Cfb :=
  ⟨[⟨[], "__substg1.0_10090102", false, [1, 2, 3]⟩]⟩

/-- An RTF decompressor that always yields `"RTF"`. -/
def dSome : List Nat → Option (List Char) :=
  fun _ => some ['R', 'T', 'F']

/-- A container whose HTML-body stream is invalid UTF-8 and whose
compressed-RTF stream is present. -/
def cV : Cfb :=
  ⟨[⟨[], "__substg1.0_10130102", false, [0xFF]⟩,
    ⟨[], "__substg1.0_10090102", false, [1]⟩]⟩

/-! ## Codec lemmas -/

theorem pack_unitsToBytesLE (us : List Nat) :
    pack_u8s_to_u16s_le_padded (unitsToBytesLE us) = us := by
  induction us with
  | nil => rfl
  | cons u us ih =>
    simp only [unitsToBytesLE, pack_u8s_to_u16s_le_padded, ih]
    congr 1
    omega

theorem utf16Decode_cons_bmp (u : Nat) (us : List Nat)
    (h : ¬(0xD800 ≤ u ∧ u < 0xE000)) :
    utf16Decode (u :: us) = (utf16Decode us).map (fun t => Char.ofNat u :: t) := by
  cases us with
  | nil => rw [utf16Decode.eq_3, if_neg (by omega), if_neg (by omega)]
  | cons v vs => rw [utf16Decode.eq_2, if_neg (by omega), if_neg (by omega)]

theorem charValid (c : Char) :
    c.toNat < 0xD800 ∨ (0xE000 ≤ c.toNat ∧ c.toNat < 0x110000) := by
  have h := c.valid
  simp only [UInt32.isValidChar, Nat.isValidChar] at h
  exact h

theorem utf16Decode_encodeChar (c : Char) (rest : List Nat) :
    utf16Decode (encodeChar c ++ rest) = (utf16Decode rest).map (fun t => c :: t) := by
  by_cases hlt : c.toNat < 0x10000
  · have hval : c.toNat < 0xD800 ∨ 0xE000 ≤ c.toNat := by
      rcases charValid c with h | h
      · exact Or.inl h
      · exact Or.inr h.1
    have henc : encodeChar c = [c.toNat] := by
      unfold encodeChar
      rw [if_pos hlt]
    rw [henc, List.cons_append, List.nil_append,
      utf16Decode_cons_bmp _ _ (by omega), Char.ofNat_toNat]
  · have hhi : c.toNat < 0x110000 := by
      rcases charValid c with h | h
      · omega
      · exact h.2
    have henc : encodeChar c =
        [0xD800 + (c.toNat - 0x10000) / 0x400, 0xDC00 + (c.toNat - 0x10000) % 0x400] := by
      unfold encodeChar
      rw [if_neg hlt]
    have hdiv : (c.toNat - 0x10000) / 0x400 < 0x400 := by omega
    have hmod : (c.toNat - 0x10000) % 0x400 < 0x400 := by omega
    rw [henc, List.cons_append, List.cons_append, List.nil_append, utf16Decode.eq_2,
      if_pos (by omega), if_pos (by omega)]
    have harith :
        0x10000 + (0xD800 + (c.toNat - 0x10000) / 0x400 - 0xD800) * 0x400 +
            (0xDC00 + (c.toNat - 0x10000) % 0x400 - 0xDC00) = c.toNat := by
      omega
    rw [harith, Char.ofNat_toNat]

theorem utf16Decode_utf16Encode (s : List Char) :
    utf16Decode (utf16Encode s) = some s := by
  induction s with
  | nil => rfl
  | cons c s ih =>
    simp only [utf16Encode, utf16Decode_encodeChar, ih]
    rfl

theorem unitsToBytesLE_length (us : List Nat) :
    (unitsToBytesLE us).length = 2 * us.length := by
  induction us with
  | nil => rfl
  | cons u us ih =>
    simp only [unitsToBytesLE, List.length_cons, ih]
    omega

theorem pack_append_zero_of_odd :
    ∀ bs : List Nat, bs.length % 2 = 1 →
      pack_u8s_to_u16s_le_padded (bs ++ [0]) = pack_u8s_to_u16s_le_padded bs
  | [], h => by simp at h
  | [b], _ => by
    show pack_u8s_to_u16s_le_padded [b, 0] = pack_u8s_to_u16s_le_padded [b]
    simp [pack_u8s_to_u16s_le_padded]
  | b0 :: b1 :: rest, h => by
    have hr : rest.length % 2 = 1 := by
      simp only [List.length_cons] at h
      omega
    show pack_u8s_to_u16s_le_padded (b0 :: b1 :: (rest ++ [0])) = _
    simp only [pack_u8s_to_u16s_le_padded, pack_append_zero_of_odd rest hr]

/-! ## Builder lemmas -/

theorem exBind_ok {α β : Type} (a : α) (f : α → Except MsgError β) :
    (Except.ok a >>= f) = f a := rfl

theorem exBind_err {α β : Type} (e : MsgError) (f : α → Except MsgError β) :
    ((Except.error e : Except MsgError α) >>= f) = .error e := rfl

theorem le_foldr_max (f : Entry → Nat) :
    ∀ (l : List Entry) (x : Entry), x ∈ l → f x ≤ (l.map f).foldr Nat.max 0
  | a :: l, x, hx => by
    rcases List.mem_cons.mp hx with h | h
    · subst h
      simp only [List.map_cons, List.foldr_cons]
      exact Nat.le_max_left _ _
    · have h2 := le_foldr_max f l x h
      simp only [List.map_cons, List.foldr_cons]
      exact le_trans h2 (Nat.le_max_right _ _)

theorem epath_length_le {c : Cfb} {e : Entry} (he : e ∈ c.entries) :
    (epath e).length ≤ maxPathLen c :=
  le_foldr_max (fun e => (epath e).length) c.entries e he

theorem isStorageB_nonroot {c : Cfb} {p : List String}
    (h : isStorageB c p = true) (hne : p ≠ []) :
    ∃ e ∈ c.entries, epath e = p ∧ e.isDir = true := by
  rw [isStorageB, Bool.or_eq_true, beq_iff_eq, List.any_eq_true] at h
  rcases h with h | ⟨e, he, hp⟩
  · exact absurd h hne
  · rw [Bool.and_eq_true, beq_iff_eq] at hp
    exact ⟨e, he, hp.1, hp.2⟩

theorem storage_path_len_le {c : Cfb} {p : List String}
    (h : isStorageB c p = true) (hne : p ≠ []) : p.length ≤ maxPathLen c := by
  obtain ⟨e, he, hp, _⟩ := isStorageB_nonroot h hne
  calc p.length = (epath e).length := by rw [hp]
    _ ≤ maxPathLen c := epath_length_le he

theorem readStorage_eq_some {c : Cfb} {p : List String} {es : List Entry}
    (h : readStorage c p = some es) :
    isStorageB c p = true ∧ es = c.entries.filter (fun e => e.parent == p) := by
  rw [readStorage] at h
  by_cases hs : isStorageB c p = true
  · rw [if_pos hs] at h
    exact ⟨hs, (Option.some_injective _ h).symm⟩
  · rw [if_neg hs] at h
    exact absurd h (by simp)

theorem readStorage_eq_none {c : Cfb} {p : List String}
    (h : isStorageB c p = false) : readStorage c p = none := by
  rw [readStorage, if_neg (by simp [h])]

theorem attachment_paths_shape {c : Cfb} {path : List String}
    {aps : List (List String)} (h : Msg.attachment_paths c path = .ok aps) :
    isStorageB c path = true ∧
    ∀ a ∈ aps, ∃ e ∈ c.entries, e.parent = path ∧ a = epath e := by
  rw [Msg.attachment_paths] at h
  cases hrs : readStorage c path with
  | none => rw [hrs] at h; exact absurd h (by simp)
  | some es =>
    rw [hrs] at h
    obtain ⟨hst, hes⟩ := readStorage_eq_some hrs
    refine ⟨hst, ?_⟩
    intro a ha
    have h' : (Except.ok
        ((es.filter (fun e => strStarts "__attach_version1.0_" e.name)).map epath) :
        Except MsgError (List (List String))) = Except.ok aps := h
    have heq := (Except.ok.injEq _ _).mp h'
    rw [← heq] at ha
    obtain ⟨e, he, hea⟩ := List.mem_map.mp ha
    have he2 := List.mem_filter.mp he
    have he31 : e ∈ c.entries ∧ (e.parent == path) = true := by
      have hmem := he2.1
      rw [hes] at hmem
      exact List.mem_filter.mp hmem
    obtain ⟨hmem2, hbeq⟩ := he31
    have hpar : e.parent = path := by rwa [beq_iff_eq] at hbeq
    exact ⟨e, hmem2, hpar, hea.symm⟩

theorem embedded_messages_shape {c : Cfb} {path : List String}
    {ps : List (List String)} (h : Msg.embedded_messages c path = .ok ps) :
    isStorageB c path = true ∧
    ∀ p ∈ ps, isStorageB c p = true ∧ p.length = path.length + 2 := by
  rw [Msg.embedded_messages] at h
  cases hap : Msg.attachment_paths c path with
  | error e => rw [hap] at h; exact absurd h (by simp [exBind_err])
  | ok aps =>
    rw [hap, exBind_ok] at h
    obtain ⟨hst, haps⟩ := attachment_paths_shape hap
    refine ⟨hst, ?_⟩
    intro p hp
    have hps : ps = (aps.map (fun a => a ++ [Msg.substg "3701" "000D"])).filter
        (fun a => isStorageB c a) := by
      have := (Except.ok.injEq _ _).mp h
      exact this.symm
    rw [hps] at hp
    have hp2 := List.mem_filter.mp hp
    obtain ⟨a, ha, hpa⟩ := List.mem_map.mp hp2.1
    obtain ⟨e, _, hpar, hae⟩ := haps a ha
    refine ⟨hp2.2, ?_⟩
    rw [← hpa, hae, epath, List.length_append, List.length_append, hpar]
    simp

theorem embedded_messages_of_storage {c : Cfb} {path : List String}
    (h : isStorageB c path = true) :
    ∃ ps, Msg.embedded_messages c path = .ok ps := by
  rw [Msg.embedded_messages, Msg.attachment_paths, readStorage, if_pos h, exBind_ok]
  exact ⟨_, rfl⟩

theorem embedded_messages_of_nonstorage {c : Cfb} {path : List String}
    (h : isStorageB c path = false) :
    Msg.embedded_messages c path = .error .io := by
  rw [Msg.embedded_messages, Msg.attachment_paths, readStorage_eq_none h, exBind_err]

theorem seqOpt_isSome {α : Type} :
    ∀ l : List (Option α), (∀ x ∈ l, x.isSome) → (seqOpt l).isSome
  | [], _ => by simp [seqOpt]
  | none :: os, h => by
    have ho := h none (List.mem_cons_self none os)
    simp at ho
  | some a :: os, h => by
    have hos := seqOpt_isSome os (fun x hx => h x (List.mem_cons_of_mem (some a) hx))
    rw [seqOpt]
    cases hseq : seqOpt os with
    | none => rw [hseq] at hos; simp at hos
    | some rest => simp

theorem build_go_succ_ok {c : Cfb} {dec : List Nat → Option (List Char)}
    {fuel : Nat} {path : List String} {ps : List (List String)}
    (hps : Msg.embedded_messages c path = .ok ps) :
    build_go c dec (fuel + 1) path =
      (seqOpt (ps.map (fun p => build_go c dec fuel p))).map
        (build_node c dec path) := by
  rw [build_go, hps]

theorem build_go_succ_err {c : Cfb} {dec : List Nat → Option (List Char)}
    {fuel : Nat} {path : List String} {e : MsgError}
    (hps : Msg.embedded_messages c path = .error e) :
    build_go c dec (fuel + 1) path = none := by
  rw [build_go, hps]

theorem build_go_isSome (c : Cfb) (dec : List Nat → Option (List Char)) :
    ∀ (fuel : Nat) (path : List String), maxPathLen c < path.length + fuel →
      isStorageB c path = true → (build_go c dec fuel path).isSome
  | 0, path, hlt, hst => by
    exfalso
    by_cases hne : path = []
    · subst hne
      simp at hlt
    · have := storage_path_len_le hst hne
      omega
  | fuel + 1, path, hlt, hst => by
    obtain ⟨ps, hps⟩ := embedded_messages_of_storage hst
    rw [build_go_succ_ok hps]
    have hshape := (embedded_messages_shape hps).2
    have hseq : (seqOpt (ps.map (fun p => build_go c dec fuel p))).isSome := by
      apply seqOpt_isSome
      intro x hx
      obtain ⟨p, hp, hxp⟩ := List.mem_map.mp hx
      obtain ⟨hpst, hplen⟩ := hshape p hp
      rw [← hxp]
      exact build_go_isSome c dec fuel p (by omega) hpst
    cases hs : seqOpt (ps.map (fun p => build_go c dec fuel p)) with
    | none => rw [hs] at hseq; simp at hseq
    | some embs => simp

theorem build_go_irrel (c : Cfb) (dec : List Nat → Option (List Char)) :
    ∀ (f1 f2 : Nat) (path : List String), maxPathLen c < path.length + f1 →
      maxPathLen c < path.length + f2 →
      build_go c dec f1 path = build_go c dec f2 path
  | f1, f2, path, h1, h2 => by
    cases hst : isStorageB c path with
    | false =>
      have hnone : ∀ f : Nat, build_go c dec f path = none := by
        intro f
        cases f with
        | zero => rw [build_go]
        | succ g => exact build_go_succ_err (embedded_messages_of_nonstorage hst)
      rw [hnone, hnone]
    | true =>
      cases f1 with
      | zero =>
        exfalso
        by_cases hne : path = []
        · subst hne
          simp at h1
        · have := storage_path_len_le hst hne
          omega
      | succ g1 =>
        cases f2 with
        | zero =>
          exfalso
          by_cases hne : path = []
          · subst hne
            simp at h2
          · have := storage_path_len_le hst hne
            omega
        | succ g2 =>
          obtain ⟨ps, hps⟩ := embedded_messages_of_storage hst
          rw [build_go_succ_ok hps, build_go_succ_ok hps]
          have hshape := (embedded_messages_shape hps).2
          have hmap : ps.map (fun p => build_go c dec g1 p) =
              ps.map (fun p => build_go c dec g2 p) := by
            apply List.map_congr_left
            intro p hp
            obtain ⟨hpst, hplen⟩ := hshape p hp
            exact build_go_irrel c dec g1 g2 p (by omega) (by omega)
          rw [hmap]
termination_by f1 _ _ => f1
decreasing_by omega

theorem seqOpt_filterMap {α β : Type} (g : β → Option α) :
    ∀ (l : List β) (embs : List α), seqOpt (l.map g) = some embs → embs = l.filterMap g
  | [], embs, h => by
    rw [List.map_nil, seqOpt] at h
    rw [List.filterMap_nil, ← Option.some_inj, h]
  | b :: l, embs, h => by
    rw [List.map_cons] at h
    cases hb : g b with
    | none =>
      rw [hb, seqOpt] at h
      exact absurd h (by simp)
    | some a =>
      rw [hb, seqOpt] at h
      cases hs : seqOpt (l.map g) with
      | none =>
        rw [hs] at h
        exact absurd h (by simp)
      | some rest =>
        rw [hs] at h
        have h' : some (a :: rest) = some embs := h
        have hrest := seqOpt_filterMap g l rest hs
        rw [List.filterMap_cons_some hb, ← hrest]
        exact (Option.some_inj.mp h').symm

theorem from_bytes_internal_none_iff (c : Cfb) (dec : List Nat → Option (List Char))
    (path : List String) :
    from_bytes_internal c dec path = none ↔ readStorage c path = none := by
  cases hst : isStorageB c path with
  | false =>
    constructor
    · intro _
      exact readStorage_eq_none hst
    · intro _
      exact build_go_succ_err (embedded_messages_of_nonstorage hst)
  | true =>
    constructor
    · intro h
      have := build_go_isSome c dec (maxPathLen c + 1) path (by omega) hst
      rw [from_bytes_internal] at h
      rw [h] at this
      simp at this
    · intro h
      rw [readStorage, if_pos hst] at h
      exact absurd h (by simp)

theorem from_bytes_internal_some_eq {c : Cfb} {dec : List Nat → Option (List Char)}
    {path : List String} {e : Email}
    (h : from_bytes_internal c dec path = some e) :
    ∃ ps, Msg.embedded_messages c path = .ok ps ∧
      e = build_node c dec path
        (ps.filterMap (fun p => from_bytes_internal c dec p)) := by
  cases hst : isStorageB c path with
  | false =>
    rw [from_bytes_internal, build_go_succ_err (embedded_messages_of_nonstorage hst)] at h
    exact absurd h (by simp)
  | true =>
    obtain ⟨ps, hps⟩ := embedded_messages_of_storage hst
    refine ⟨ps, hps, ?_⟩
    rw [from_bytes_internal, build_go_succ_ok hps] at h
    cases hs : seqOpt (ps.map (fun p => build_go c dec (maxPathLen c) p)) with
    | none =>
      rw [hs] at h
      exact absurd h (by simp)
    | some embs =>
      rw [hs, Option.map_some'] at h
      have he : e = build_node c dec path embs := by
        rw [← Option.some_inj, h]
      have hshape := (embedded_messages_shape hps).2
      have hmap : ps.map (fun p => build_go c dec (maxPathLen c) p) =
          ps.map (fun p => from_bytes_internal c dec p) := by
        apply List.map_congr_left
        intro p hp
        obtain ⟨hpst, hplen⟩ := hshape p hp
        exact build_go_irrel c dec (maxPathLen c) (maxPathLen c + 1) p
          (by omega) (by omega)
      rw [hmap] at hs
      have := seqOpt_filterMap (fun p => from_bytes_internal c dec p) ps embs hs
      rw [he, this]

/-! ## Claims -/

/-- **C8** — For every text, decoding its UTF-16LE byte encoding (whose
length is always even) through the text codec of `read_simple_string`
reproduces the text with trailing NUL code points stripped: decode composed
with UTF-16LE encode equals trimming trailing NULs. -/
theorem C8_utf16le_roundtrip (s : List Char) :
    (utf16leBytes s).length % 2 = 0 ∧
    decode_text (utf16leBytes s) = some (trimEndNuls s) := by
  refine ⟨?_, ?_⟩
  · rw [utf16leBytes, unitsToBytesLE_length]
    omega
  · rw [decode_text, utf16leBytes, pack_unitsToBytesLE, utf16Decode_utf16Encode]
    rfl

/-- **C9** — A byte sequence of odd length is decoded exactly as if a single
trailing zero byte were appended (the final code unit gets a zero high
byte), so odd length alone never fails the decode. -/
theorem C9_odd_length_padding (bs : List Nat) (h : bs.length % 2 = 1) :
    pack_u8s_to_u16s_le_padded bs = pack_u8s_to_u16s_le_padded (bs ++ [0]) ∧
    decode_text bs = decode_text (bs ++ [0]) := by
  have hp := pack_append_zero_of_odd bs h
  exact ⟨hp.symm, by rw [decode_text, decode_text, hp]⟩

/-- Witness for C9 at the one-byte sequence `[0x48]` (an odd-length `"H"`):
the hypothesis holds and the padded and unpadded decodes agree (both decode
successfully to `"H"`). -/
theorem C9_odd_length_padding_witness :
    ([0x48] : List Nat).length % 2 = 1 ∧
    decode_text [0x48] = decode_text [0x48, 0] ∧
    decode_text [0x48] = some ['H'] :=
  ⟨by decide, (C9_odd_length_padding [0x48] (by decide)).2, by decide⟩


theorem build_node_embedded (c : Cfb) (dec : List Nat → Option (List Char))
    (path : List String) (embs : List Email) :
    (build_node c dec path embs).embedded_messages = embs := rfl

/-- **C2** — No per-field resolution failure (sender, sent date, To/Cc/Bcc,
subject, body, attachments) aborts the high-level build: the build fails
exactly when enumerating the storages at the node fails, and every built
node carries each field as the `.ok()` / `.unwrap_or_default()` degradation
of its resolver — an absent or empty value, never an error value. -/
theorem C2_field_failures_nonfatal (c : Cfb) (dec : List Nat → Option (List Char))
    (path : List String) :
    (from_bytes_internal c dec path = none ↔ readStorage c path = none) ∧
    (∀ e, from_bytes_internal c dec path = some e →
      e.from_ = exOk (Msg.from_ c path) ∧
      e.sent_date = exOk (Msg.sent_date c path) ∧
      e.to_ = exListD (Msg.to_ c path) ∧
      e.cc = exListD (Msg.cc c path) ∧
      e.bcc = exListD (Msg.bcc c path) ∧
      e.subject = exOk (Msg.pr_subject c path) ∧
      e.body = exOk (Msg.body c dec path) ∧
      e.attachments = exListD (Msg.attachments c path)) := by
  refine ⟨from_bytes_internal_none_iff c dec path, ?_⟩
  intro e he
  obtain ⟨ps, hps, heq⟩ := from_bytes_internal_some_eq he
  rw [heq]
  exact ⟨rfl, rfl, rfl, rfl, rfl, rfl, rfl, rfl⟩

set_option maxRecDepth 1000000 in
/-- Witness for C2: on `cW` (a subject stream and nothing else) the build
succeeds with every failing field degraded to `none`/`[]`. -/
theorem C2_field_failures_nonfatal_witness :
    from_bytes_internal cW dNone [] = some eW ∧
    eW.from_ = exOk (Msg.from_ cW []) ∧ eW.from_ = none ∧
    eW.subject = exOk (Msg.pr_subject cW []) ∧ eW.subject = some ['H', 'i'] ∧
    eW.body = none ∧ eW.to_ = [] := by
  have hsome : from_bytes_internal cW dNone [] = some eW := by rfl
  have h := (C2_field_failures_nonfatal cW dNone []).2 eW hsome
  exact ⟨hsome, h.1, rfl, h.2.2.2.2.2.1, rfl, rfl, rfl⟩

/-- **C1** — An attachment sub-entry contributes an embedded message exactly
when its fixed sub-path `__substg1.0_3701000D` is a storage: with exactly
one attachment entry whose sub-path is a storage the built message has
exactly one nested message, built recursively from that sub-path; with no
attachment entry having a storage sub-path it has none. -/
theorem C1_embedded_message_detection (c : Cfb) (dec : List Nat → Option (List Char))
    (path : List String) (aps : List (List String))
    (hap : Msg.attachment_paths c path = .ok aps) :
    (∀ a, aps = [a] → isStorageB c (a ++ [Msg.substg "3701" "000D"]) = true →
      ∃ e m, from_bytes_internal c dec path = some e ∧
        from_bytes_internal c dec (a ++ [Msg.substg "3701" "000D"]) = some m ∧
        e.embedded_messages = [m]) ∧
    ((∀ a ∈ aps, isStorageB c (a ++ [Msg.substg "3701" "000D"]) = false) →
      ∃ e, from_bytes_internal c dec path = some e ∧ e.embedded_messages = []) := by
  have hst := (attachment_paths_shape hap).1
  have hemb : Msg.embedded_messages c path =
      .ok ((aps.map (fun a => a ++ [Msg.substg "3701" "000D"])).filter
        (fun a => isStorageB c a)) := by
    rw [Msg.embedded_messages, hap, exBind_ok]
    rfl
  have hsome := build_go_isSome c dec (maxPathLen c + 1) path (by omega) hst
  rw [← from_bytes_internal] at hsome
  obtain ⟨e, he⟩ := Option.isSome_iff_exists.mp hsome
  obtain ⟨ps, hps, heq⟩ := from_bytes_internal_some_eq he
  rw [hemb] at hps
  have hpseq : ((aps.map (fun a => a ++ [Msg.substg "3701" "000D"])).filter
      (fun a => isStorageB c a)) = ps := (Except.ok.injEq _ _).mp hps
  constructor
  · intro a ha hsub
    subst ha
    have hps1 : ps = [a ++ Msg.substg "3701" "000D" :: []] := by
      rw [← hpseq]
      simp only [List.map_cons, List.map_nil, List.filter_cons, List.filter_nil, hsub,
        if_true]
    have hsubsome := build_go_isSome c dec (maxPathLen c + 1)
      (a ++ [Msg.substg "3701" "000D"])
      (by
        have hlen : 1 ≤ (a ++ [Msg.substg "3701" "000D"]).length := by
          rw [List.length_append]
          simp
        have := storage_path_len_le hsub (by
          intro hcon
          rw [hcon] at hlen
          simp at hlen)
        omega) hsub
    rw [← from_bytes_internal] at hsubsome
    obtain ⟨m, hm⟩ := Option.isSome_iff_exists.mp hsubsome
    refine ⟨e, m, he, hm, ?_⟩
    rw [heq, build_node_embedded, hps1]
    rw [List.filterMap_cons_some hm, List.filterMap_nil]
  · intro hnone
    have hps0 : ps = [] := by
      rw [← hpseq]
      apply List.filter_eq_nil_iff.mpr
      intro x hx
      obtain ⟨a, ha, hxa⟩ := List.mem_map.mp hx
      rw [← hxa]
      simp [hnone a ha]
    refine ⟨e, he, ?_⟩
    rw [heq, build_node_embedded, hps0, List.filterMap_nil]

set_option maxRecDepth 1000000 in
/-- Witness for C1: `cE` (one attachment entry with a storage sub-path)
yields exactly one nested message; `cZ` (one attachment entry, no storage
sub-path) yields none. -/
theorem C1_embedded_message_detection_witness :
    (∃ e m, from_bytes_internal cE dNone [] = some e ∧
      from_bytes_internal cE dNone
        ["__attach_version1.0_00000000", "__substg1.0_3701000D"] = some m ∧
      e.embedded_messages = [m]) ∧
    (∃ e, from_bytes_internal cZ dNone [] = some e ∧ e.embedded_messages = []) := by
  constructor
  · exact (C1_embedded_message_detection cE dNone [] [["__attach_version1.0_00000000"]]
      (by rfl)).1 ["__attach_version1.0_00000000"] rfl (by rfl)
  · refine (C1_embedded_message_detection cZ dNone [] [["__attach_version1.0_00000000"]]
      (by rfl)).2 ?_
    intro a ha
    rw [List.mem_singleton] at ha
    subst ha
    rfl

theorem exOrElse_ok {α : Type} (v : α) (b : Except MsgError α) :
    exOrElse (.ok v) b = .ok v := rfl

theorem exOrElse_err {α : Type} (e : MsgError) (b : Except MsgError α) :
    exOrElse (.error e) b = b := rfl

/-- **C3** — The body resolver returns the HTML-body binary property decoded
strictly as UTF-8 whenever the read and the decode both succeed (so HTML
wins even when compressed RTF is also present and valid); on any HTML
failure it falls back to the RTF route; when both fail, the built message's
body is absent. -/
theorem C3_body_preference (c : Cfb) (dec : List Nat → Option (List Char))
    (path : List String) :
    (∀ hb s, Msg.read_simple_binary c path "1013" = .ok hb → utf8Decode hb = some s →
      Msg.body c dec path = .ok s) ∧
    (∀ e, Msg.pr_body_html c path = .error e →
      Msg.body c dec path = Msg.rtf c dec path) ∧
    (∀ e1 e2 em, Msg.pr_body_html c path = .error e1 →
      Msg.rtf c dec path = .error e2 →
      from_bytes_internal c dec path = some em → em.body = none) := by
  refine ⟨?_, ?_, ?_⟩
  · intro hb s h1 h2
    have hhtml : Msg.pr_body_html c path = .ok s := by
      simp only [Msg.pr_body_html, h1, exBind_ok, h2]
    rw [Msg.body, hhtml, exOrElse_ok]
  · intro e hhtml
    rw [Msg.body, hhtml, exOrElse_err]
  · intro e1 e2 em h1 h2 hem
    obtain ⟨ps, hps, heq⟩ := from_bytes_internal_some_eq hem
    rw [heq]
    show exOk (Msg.body c dec path) = none
    rw [Msg.body, h1, exOrElse_err, h2]
    rfl

set_option maxRecDepth 1000000 in
/-- Witness for C3: on `cB` both candidates are present and valid and the
body is the UTF-8 decode of the HTML property, not the RTF decode; on `cHR`
the HTML property is missing and the body equals the RTF route; on `cW`
both fail and the built body is absent. -/
theorem C3_body_preference_witness :
    Msg.body cB dSome [] = .ok ['<', 'b', '>', 'x', '<', '/', 'b', '>'] ∧
    Msg.rtf cB dSome [] = .ok ['R', 'T', 'F'] ∧
    Msg.body cHR dSome [] = Msg.rtf cHR dSome [] ∧
    eW.body = none := by
  refine ⟨?_, by rfl, ?_, ?_⟩
  · exact (C3_body_preference cB dSome []).1 [60, 98, 62, 120, 60, 47, 98, 62]
      ['<', 'b', '>', 'x', '<', '/', 'b', '>'] (by rfl) (by rfl)
  · exact (C3_body_preference cHR dSome []).2.1 .io (by rfl)
  · exact (C3_body_preference cW dNone []).2.2 .io .io eW (by rfl) (by rfl) (by rfl)

/-- **C4** — A recipient appears in a role's result exactly when its display
name, compared exactly, matches an entry of that role's display-name-list
property split on `';'` with each entry trimmed; consequently a recipient
whose name occurs only in the Cc list lands in the Cc result and in
neither the To nor the Bcc result. -/
theorem C4_recipient_role_classification (c : Cfb) (path : List String)
    (tf cf bf : List Char) (rs : List (List Char × List Char))
    (hto : Msg.read_simple_string c path "0E04" = .ok tf)
    (hcc : Msg.read_simple_string c path "0E03" = .ok cf)
    (hbcc : Msg.read_simple_string c path "0E02" = .ok bf)
    (hrs : Msg.recipients c path = .ok rs) :
    (∀ r, r ∈ exListD (Msg.to_ c path) ↔
      r ∈ rs ∧ r.1 ∈ (splitOnChar ';' tf).map trimWs) ∧
    (∀ r, r ∈ exListD (Msg.cc c path) ↔
      r ∈ rs ∧ r.1 ∈ (splitOnChar ';' cf).map trimWs) ∧
    (∀ r, r ∈ exListD (Msg.bcc c path) ↔
      r ∈ rs ∧ r.1 ∈ (splitOnChar ';' bf).map trimWs) ∧
    (∀ r ∈ rs, r.1 ∈ (splitOnChar ';' cf).map trimWs →
      r.1 ∉ (splitOnChar ';' tf).map trimWs →
      r.1 ∉ (splitOnChar ';' bf).map trimWs →
      r ∈ exListD (Msg.cc c path) ∧ r ∉ exListD (Msg.to_ c path) ∧
        r ∉ exListD (Msg.bcc c path)) := by
  have hto' : Msg.to_ c path = .ok (rs.filter (fun kv =>
      ((splitOnChar ';' tf).map trimWs).contains kv.1)) := by
    simp only [Msg.to_, hto, hrs, exBind_ok]
    rfl
  have hcc' : Msg.cc c path = .ok (rs.filter (fun kv =>
      ((splitOnChar ';' cf).map trimWs).contains kv.1)) := by
    simp only [Msg.cc, hcc, hrs, exBind_ok]
    rfl
  have hbcc' : Msg.bcc c path = .ok (rs.filter (fun kv =>
      ((splitOnChar ';' bf).map trimWs).contains kv.1)) := by
    simp only [Msg.bcc, hbcc, hrs, exBind_ok]
    rfl
  have hmem : ∀ (ls : List (List Char)) (l : List (List Char × List Char))
      (r : List Char × List Char),
      r ∈ l.filter (fun kv => ls.contains kv.1) ↔ r ∈ l ∧ r.1 ∈ ls := by
    intro ls l r
    rw [List.mem_filter, List.elem_iff]
  refine ⟨?_, ?_, ?_, ?_⟩
  · intro r
    rw [hto']
    exact hmem _ rs r
  · intro r
    rw [hcc']
    exact hmem _ rs r
  · intro r
    rw [hbcc']
    exact hmem _ rs r
  · intro r hr hin hnt hnb
    refine ⟨?_, ?_, ?_⟩
    · rw [hcc']
      exact (hmem _ rs r).mpr ⟨hr, hin⟩
    · rw [hto']
      intro hcon
      exact hnt ((hmem _ rs r).mp hcon).2
    · rw [hbcc']
      intro hcon
      exact hnb ((hmem _ rs r).mp hcon).2

set_option maxRecDepth 1000000 in
/-- Witness for C4 on `cR`: the recipient Alice, whose display name occurs
only in the Cc list, is in the Cc result and in neither the To nor the Bcc
result. -/
theorem C4_recipient_role_classification_witness :
    (['A', 'l', 'i', 'c', 'e'], "alice@x".toList) ∈ exListD (Msg.cc cR []) ∧
    (['A', 'l', 'i', 'c', 'e'], "alice@x".toList) ∉ exListD (Msg.to_ cR []) ∧
    (['A', 'l', 'i', 'c', 'e'], "alice@x".toList) ∉ exListD (Msg.bcc cR []) := by
  have h := (C4_recipient_role_classification cR [] "Bob".toList "Alice".toList
    "".toList [(['A', 'l', 'i', 'c', 'e'], "alice@x".toList)]
    (by rfl) (by rfl) (by rfl) (by rfl)).2.2.2
  exact h (['A', 'l', 'i', 'c', 'e'], "alice@x".toList) (by simp)
    (by decide) (by decide) (by decide)

/-- **C7** — An attachment entry is included in the attachment result
exactly when a filename resolves (long form preferred, short form only on
long-form failure) and the binary data property resolves; an entry whose
data or whose both filename forms fail is dropped entirely, never surfaced
with an empty name or partial data. -/
theorem C7_attachment_inclusion (c : Cfb) (path : List String)
    (aps : List (List String)) (hap : Msg.attachment_paths c path = .ok aps) :
    Msg.attachments c path =
      .ok (aps.filterMap (fun a => exOk (Msg.attachmentOf c a))) ∧
    (∀ a nm d, Msg.attachment_name c a = .ok nm → Msg.attachment_data c a = .ok d →
      exOk (Msg.attachmentOf c a) = some ⟨nm, d⟩) ∧
    (∀ a e, Msg.attachment_name c a = .error e →
      exOk (Msg.attachmentOf c a) = none) ∧
    (∀ a e, Msg.attachment_data c a = .error e →
      exOk (Msg.attachmentOf c a) = none) ∧
    (∀ a nm, Msg.read_path_as_string c (a ++ [Msg.substg "3704" "001F"]) = .ok nm →
      Msg.attachment_name c a = .ok nm) ∧
    (∀ a e nm,
      Msg.read_path_as_string c (a ++ [Msg.substg "3704" "001F"]) = .error e →
      Msg.read_path_as_string c (a ++ [Msg.substg "3001" "001F"]) = .ok nm →
      Msg.attachment_name c a = .ok nm) := by
  refine ⟨?_, ?_, ?_, ?_, ?_, ?_⟩
  · rw [Msg.attachments, hap, exBind_ok]
    rfl
  · intro a nm d h1 h2
    rw [Msg.attachmentOf, h1, exBind_ok, h2, exBind_ok]
    rfl
  · intro a e h1
    rw [Msg.attachmentOf, h1, exBind_err]
    rfl
  · intro a e h2
    rw [Msg.attachmentOf]
    cases h1 : Msg.attachment_name c a with
    | error e1 => rw [exBind_err]; rfl
    | ok nm => rw [exBind_ok, h2, exBind_err]; rfl
  · intro a nm h1
    rw [Msg.attachment_name, h1, exOrElse_ok]
  · intro a e nm h1 h2
    rw [Msg.attachment_name, h1, exOrElse_err, h2]

set_option maxRecDepth 1000000 in
/-- Witness for C7 on `cA`: the complete entry (short filename only) yields
an attachment named via the short form; the entry lacking its data property
is dropped, so the result holds exactly one attachment. -/
theorem C7_attachment_inclusion_witness :
    Msg.attachments cA [] = .ok [⟨"a.txt".toList, [9, 9]⟩] ∧
    Msg.attachment_name cA ["__attach_version1.0_00000000"] = .ok "a.txt".toList ∧
    exOk (Msg.attachmentOf cA ["__attach_version1.0_00000001"]) = none := by
  have h := C7_attachment_inclusion cA []
    [["__attach_version1.0_00000000"], ["__attach_version1.0_00000001"]] (by rfl)
  refine ⟨?_, ?_, ?_⟩
  · exact h.1.trans (by rfl)
  · exact h.2.2.2.2.2 ["__attach_version1.0_00000000"] .io "a.txt".toList
      (by rfl) (by rfl)
  · exact h.2.2.2.1 ["__attach_version1.0_00000001"] .io (by rfl)

theorem recip_pair_error {c : Cfb} {r : List String}
    (hmiss : openStream c (r ++ [Msg.substg "3001" "001F"]) = none ∨
             openStream c (r ++ [Msg.substg "39FE" "001F"]) = none) :
    ∃ e, (do
      let name ← Msg.read_path_as_string c (r ++ [Msg.substg "3001" "001F"])
      let address ← Msg.read_path_as_string c (r ++ [Msg.substg "39FE" "001F"])
      pure (name, address) : Except MsgError (List Char × List Char)) = .error e := by
  rcases hmiss with h | h
  · have hn : Msg.read_path_as_string c (r ++ [Msg.substg "3001" "001F"]) =
        .error .io := by
      rw [Msg.read_path_as_string, Msg.readStringAt, h]
    rw [hn, exBind_err]
    exact ⟨.io, rfl⟩
  · have ha : Msg.read_path_as_string c (r ++ [Msg.substg "39FE" "001F"]) =
        .error .io := by
      rw [Msg.read_path_as_string, Msg.readStringAt, h]
    cases hn : Msg.read_path_as_string c (r ++ [Msg.substg "3001" "001F"]) with
    | error e =>
      rw [exBind_err]
      exact ⟨e, rfl⟩
    | ok nm =>
      rw [exBind_ok, ha, exBind_err]
      exact ⟨.io, rfl⟩

theorem mapM_error_of_mem {α β : Type} (f : α → Except MsgError β) :
    ∀ (l : List α) (x : α), x ∈ l → (∃ e, f x = .error e) →
      ∃ e, l.mapM f = .error e
  | y :: l, x, hx, ⟨e, he⟩ => by
    rw [List.mapM_cons]
    rcases List.mem_cons.mp hx with h | h
    · subst h
      rw [he, exBind_err]
      exact ⟨e, rfl⟩
    · cases hy : f y with
      | error ey =>
        rw [exBind_err]
        exact ⟨ey, rfl⟩
      | ok b =>
        rw [exBind_ok]
        obtain ⟨e2, he2⟩ := mapM_error_of_mem f l x h ⟨e, he⟩
        rw [he2, exBind_err]
        exact ⟨e2, rfl⟩

/-- **C10** — One malformed recipient sub-entry (missing display-name or
address sub-property) fails the whole recipient enumeration, so the To, Cc
and Bcc resolvers all fail and the built message's three recipient lists
are all empty, suppressing even well-formed recipients. -/
theorem C10_recipient_error_suppression (c : Cfb)
    (dec : List Nat → Option (List Char)) (path : List String)
    (es : List Entry) (hre : readStorage c path = some es)
    (r : List String)
    (hr : r ∈ (es.filter (fun e => strStarts "__recip_version1.0_" e.name)).map epath)
    (hmiss : openStream c (r ++ [Msg.substg "3001" "001F"]) = none ∨
             openStream c (r ++ [Msg.substg "39FE" "001F"]) = none) :
    (∃ e1, Msg.recipients c path = .error e1) ∧
    (∃ e2, Msg.to_ c path = .error e2) ∧
    (∃ e3, Msg.cc c path = .error e3) ∧
    (∃ e4, Msg.bcc c path = .error e4) ∧
    (∀ em, from_bytes_internal c dec path = some em →
      em.to_ = [] ∧ em.cc = [] ∧ em.bcc = []) := by
  have hrec : ∃ e1, Msg.recipients c path = .error e1 := by
    simp only [Msg.recipients]
    rw [hre]
    exact mapM_error_of_mem _ _ r hr (recip_pair_error hmiss)
  obtain ⟨e1, he1⟩ := hrec
  have hto : ∃ e2, Msg.to_ c path = .error e2 := by
    simp only [Msg.to_]
    cases h0 : Msg.read_simple_string c path "0E04" with
    | error e =>
      rw [exBind_err]
      exact ⟨e, rfl⟩
    | ok tf =>
      rw [exBind_ok, he1, exBind_err]
      exact ⟨e1, rfl⟩
  have hcc : ∃ e3, Msg.cc c path = .error e3 := by
    simp only [Msg.cc]
    cases h0 : Msg.read_simple_string c path "0E03" with
    | error e =>
      rw [exBind_err]
      exact ⟨e, rfl⟩
    | ok cf =>
      rw [exBind_ok, he1, exBind_err]
      exact ⟨e1, rfl⟩
  have hbcc : ∃ e4, Msg.bcc c path = .error e4 := by
    simp only [Msg.bcc]
    cases h0 : Msg.read_simple_string c path "0E02" with
    | error e =>
      rw [exBind_err]
      exact ⟨e, rfl⟩
    | ok bf =>
      rw [exBind_ok, he1, exBind_err]
      exact ⟨e1, rfl⟩
  refine ⟨⟨e1, he1⟩, hto, hcc, hbcc, ?_⟩
  intro em hem
  obtain ⟨ps, hps, heq⟩ := from_bytes_internal_some_eq hem
  obtain ⟨e2, he2⟩ := hto
  obtain ⟨e3, he3⟩ := hcc
  obtain ⟨e4, he4⟩ := hbcc
  rw [heq]
  refine ⟨?_, ?_, ?_⟩
  · show exListD (Msg.to_ c path) = []
    rw [he2]
    rfl
  · show exListD (Msg.cc c path) = []
    rw [he3]
    rfl
  · show exListD (Msg.bcc c path) = []
    rw [he4]
    rfl

set_option maxRecDepth 1000000 in
/-- Witness for C10 on `cT`: the second recipient entry lacks its address
sub-property, so the enumeration fails and the built message has empty To,
Cc and Bcc lists even though its first recipient (Alice) is well-formed and
named in the To list. -/
theorem C10_recipient_error_suppression_witness :
    (∃ e1, Msg.recipients cT [] = .error e1) ∧
    (∃ e2, Msg.to_ cT [] = .error e2) ∧
    from_bytes_internal cT dNone [] = some emT ∧
    emT.to_ = [] ∧ emT.cc = [] ∧ emT.bcc = [] := by
  have h := C10_recipient_error_suppression cT dNone []
    (cT.entries.filter (fun e => e.parent == ([] : List String))) (by rfl)
    ["__recip_version1.0_00000001"] (by decide) (Or.inr (by rfl))
  have hsome : from_bytes_internal cT dNone [] = some emT := by rfl
  exact ⟨h.1, h.2.1, hsome, h.2.2.2.2 emT hsome⟩

/-- **C5 (amended)** — Error classification as implemented: a container miss
surfaces as the IO kind (`MsgError` has no dedicated PropertyMissing kind;
misses share IO with genuine I/O failures); every decode failure — invalid
UTF-16 in a text property, invalid UTF-8 in the HTML body, an undecodable
compressed-RTF stream — surfaces as Encoding; and a missing `Date` line or
malformed RFC 2822 date *also* surfaces as Encoding (there is no
FormatViolation kind); `MsgError` has exactly the kinds IO, Fmt, Encoding,
Unknown. -/
theorem C5_error_kinds_amended (c : Cfb) (path : List String) (prop : String) :
    (openStream c (path ++ [Msg.substg prop "001F"]) = none →
      Msg.read_simple_string c path prop = .error .io) ∧
    (∀ buf, openStream c (path ++ [Msg.substg prop "001F"]) = some buf →
      decode_text buf = none →
      Msg.read_simple_string c path prop = .error .encoding) ∧
    (∀ bin, Msg.read_simple_binary c path "1013" = .ok bin →
      utf8Decode bin = none → Msg.pr_body_html c path = .error .encoding) ∧
    (∀ dec comp, Msg.pr_rtf_compressed c path = .ok comp → dec comp = none →
      Msg.rtf c dec path = .error .encoding) ∧
    (∀ hdrs, Msg.pr_transport_message_headers c path = .ok hdrs →
      (rlines hdrs).find? (fun l => "Date".toList.isPrefixOf l) = none →
      Msg.sent_date c path = .error .encoding) ∧
    (∀ hdrs ln pr, Msg.pr_transport_message_headers c path = .ok hdrs →
      (rlines hdrs).find? (fun l => "Date".toList.isPrefixOf l) = some ln →
      split_once_colon_space ln = some pr → parseRfc2822 pr.2 = none →
      Msg.sent_date c path = .error .encoding) ∧
    (∀ e : MsgError, e = .io ∨ e = .fmt ∨ e = .encoding ∨ e = .unknown) := by
  refine ⟨?_, ?_, ?_, ?_, ?_, ?_, ?_⟩
  · intro h
    simp only [Msg.read_simple_string, Msg.readStringAt, h]
  · intro buf h h2
    simp only [Msg.read_simple_string, Msg.readStringAt, h, h2]
  · intro bin h h2
    simp only [Msg.pr_body_html, h, exBind_ok, h2]
  · intro dec comp h h2
    simp only [Msg.rtf, h, exBind_ok, h2]
  · intro hdrs hh hfind
    simp only [Msg.sent_date, hh, exBind_ok, hfind]
  · intro hdrs ln pr hh hfind hsplit hparse
    simp only [Msg.sent_date, hh, exBind_ok, hfind, hsplit, hparse]
  · intro e
    cases e <;> simp

set_option maxRecDepth 1000000 in
/-- Witness for the amended C5: on `cM` the subject property is missing and
reads as the IO kind; on `cU` its stream holds a lone high surrogate and
reads as Encoding; on `cD` the headers have no `Date` line and the
sent-date resolver yields Encoding. -/
theorem C5_error_kinds_amended_witness :
    Msg.read_simple_string cM [] "0037" = .error .io ∧
    Msg.read_simple_string cU [] "0037" = .error .encoding ∧
    Msg.pr_body_html cV [] = .error .encoding ∧
    Msg.rtf cV dNone [] = .error .encoding ∧
    Msg.sent_date cD [] = .error .encoding := by
  refine ⟨(C5_error_kinds_amended cM [] "0037").1 (by rfl),
    (C5_error_kinds_amended cU [] "0037").2.1 [0x00, 0xD8] (by rfl) (by rfl),
    (C5_error_kinds_amended cV [] "0037").2.2.1 [0xFF] (by rfl) (by rfl),
    (C5_error_kinds_amended cV [] "0037").2.2.2.1 dNone [1] (by rfl) (by rfl),
    (C5_error_kinds_amended cD [] "0037").2.2.2.2.1 "X-Mailer: tiny".toList
      (by rfl) (by rfl)⟩

set_option maxRecDepth 1000000 in
/-- Counterexample to **C5** as stated: `MsgError` has exactly the four
kinds IO, Fmt, Encoding, Unknown — no PropertyMissing and no
FormatViolation.  A concrete container miss surfaces as the *IO* kind, and
a missing `Date` line surfaces as the *Encoding* kind, the very constructor
a UTF-16 decode failure yields, so the claimed PropertyMissing /
Encoding / FormatViolation distinction does not exist in the code. -/
theorem C5_error_kinds_counterexample :
    Msg.read_simple_string cM [] "0037" = .error MsgError.io ∧
    Msg.sent_date cD [] = .error MsgError.encoding ∧
    Msg.read_simple_string cU [] "0037" = .error MsgError.encoding ∧
    (∀ e : MsgError, e = .io ∨ e = .fmt ∨ e = .encoding ∨ e = .unknown) := by
  refine ⟨by rfl, by rfl, by rfl, ?_⟩
  intro e
  cases e <;> simp

set_option maxRecDepth 1000000 in
/-- **C6 (amended)** — The sent-date resolver scans the newline-delimited
transport-header lines for the first line with prefix `Date`, splits it at
the first `": "`, parses the remainder as an RFC 2822 date-time normalized
to UTC, and fails when there is no `Date` line (so the high-level sent date
is absent).  The concrete example is amended to carry the
calendar-consistent weekday: `Date: Sun, 21 Nov 2021 09:55:06 +0000`
resolves to 2021-11-21T09:55:06Z (the parser rejects an inconsistent
explicit weekday such as `Fri` for that date). -/
theorem C6_sent_date_amended (c : Cfb) (path : List String) (hdrs : List Char)
    (hh : Msg.pr_transport_message_headers c path = .ok hdrs) :
    (∀ ln pr t, (rlines hdrs).find? (fun l => "Date".toList.isPrefixOf l) = some ln →
      split_once_colon_space ln = some pr → parseRfc2822 pr.2 = some t →
      Msg.sent_date c path = .ok t) ∧
    (hdrs = "Date: Sun, 21 Nov 2021 09:55:06 +0000".toList →
      Msg.sent_date c path = .ok (utcTimestamp 2021 11 21 9 55 6)) ∧
    ((rlines hdrs).find? (fun l => "Date".toList.isPrefixOf l) = none →
      Msg.sent_date c path = .error .encoding ∧
      (∀ dec em, from_bytes_internal c dec path = some em →
        em.sent_date = none)) := by
  refine ⟨?_, ?_, ?_⟩
  · intro ln pr t hfind hsplit hparse
    simp only [Msg.sent_date, hh, exBind_ok, hfind, hsplit, hparse]
  · intro hd
    subst hd
    simp only [Msg.sent_date, hh, exBind_ok]
    rfl
  · intro hfind
    have hsd : Msg.sent_date c path = .error .encoding := by
      simp only [Msg.sent_date, hh, exBind_ok, hfind]
    refine ⟨hsd, ?_⟩
    intro dec em hem
    obtain ⟨ps, hps, heq⟩ := from_bytes_internal_some_eq hem
    rw [heq]
    show exOk (Msg.sent_date c path) = none
    rw [hsd]
    rfl

set_option maxRecDepth 1000000 in
/-- Witness for the amended C6: on `cS` (weekday-consistent `Sun` date) the
resolver yields 2021-11-21T09:55:06Z, i.e. Unix second 1637488506; on `cD`
(no `Date` line) it fails. -/
theorem C6_sent_date_amended_witness :
    Msg.sent_date cS [] = .ok (utcTimestamp 2021 11 21 9 55 6) ∧
    Msg.sent_date cS [] = .ok 1637488506 ∧
    Msg.sent_date cD [] = .error .encoding := by
  have h1 := (C6_sent_date_amended cS []
    "Date: Sun, 21 Nov 2021 09:55:06 +0000".toList (by rfl)).2.1 rfl
  have h2 := ((C6_sent_date_amended cD [] "X-Mailer: tiny".toList
    (by rfl)).2.2 (by rfl)).1
  exact ⟨h1, h1.trans (by rfl), h2⟩

set_option maxRecDepth 1000000 in
/-- Counterexample to **C6** as stated: 2021-11-21 was a Sunday (weekday
number 6, Mon = 0), and the RFC 2822 parser rejects an explicit weekday
name inconsistent with the date, so transport headers carrying the claim's
line `Date: Fri, 21 Nov 2021 09:55:06 +0000` make `sent_date` fail with an
Encoding error instead of resolving to 2021-11-21T09:55:06Z. -/
theorem C6_sent_date_counterexample :
    Msg.pr_transport_message_headers cF [] =
      .ok "Date: Fri, 21 Nov 2021 09:55:06 +0000".toList ∧
    parseRfc2822 "Fri, 21 Nov 2021 09:55:06 +0000".toList = none ∧
    Msg.sent_date cF [] = .error MsgError.encoding ∧
    weekdayNum (daysFromCivil 2021 11 21) = 6 :=
  ⟨by rfl, by rfl, by rfl, by rfl⟩
